import Mathlib

/-!
# ChatApp server: connection registry, broadcast and session handling

A shallow embedding of the server half of `ChatApp.cpp`
(`broadcastMessage`, `handleClient`, and the accept loop of `startServer`).

* The two globals `clientSockets` and `clientNicknames` form the `Registry`.
* Every call into the transport (`recv`, `send`, `closesocket`), every
  acquisition and release of `clientsMutex`, every line written to
  `std::cout` and every thread start is recorded as an `Event`, in program
  order.  The diagnostics written to `std::cerr` are not recorded.
* A return value of `recv` is an `Int`; a blocked `recv` is a thread waiting
  for its next `RecvResult`.
* Threads interleave at their blocking calls: one move of the server is the
  acceptor handling one returned `accept` (or one thread start), or one
  `handleClient` thread running from the return of a `recv` to its next
  `recv`.
* `char` data is a list of characters; the byte `0` is `NUL`.  A `char*`
  read as a C string stops at the first `NUL`, and reading a buffer that
  holds no `NUL` runs past its end: that outcome is `none`.
-/

namespace ChatApp

/-! ## Constants and basic types -/

/-- A socket handle: winsock's `SOCKET` is an unsigned integer. -/
abbrev SOCKET := Nat

/-- Text held in a `std::string` or a `char` array. -/
abbrev Str := List Char

/-- The terminating byte of a C string. -/
def NUL : Char := Char.ofNat 0

/-- The sentinel `INVALID_SOCKET` of `winsock2.h`, `(SOCKET)(~0)`, at 64 bits. -/
def INVALID_SOCKET : SOCKET := 2 ^ 64 - 1

/-- The constant `BUFFER_SIZE` (line 17). -/
def BUFFER_SIZE : Nat := 1024

/-- The constant `MAX_CLIENTS` (line 18). -/
def MAX_CLIENTS : Nat := 10

/-- One observable action of the server, recorded in program order. -/
inductive Event where
  | lock
  | unlock
  | recv (s : SOCKET)
  | send (s : SOCKET) (msg : Str)
  | print (msg : Str)
  | closesocket (s : SOCKET)
  | spawn (s : SOCKET)
  deriving DecidableEq, Repr

/-- The shared state guarded by `clientsMutex`: the vector `clientSockets`
and the map `clientNicknames` (an association list ordered by key). -/
structure Registry where
  clientSockets : List SOCKET
  clientNicknames : List (SOCKET × Str)
  deriving DecidableEq, Repr

/-! ## `std::map<SOCKET, std::string>` -/

/-- The lookup `clientNicknames.find(k)`: the bound name, or `none` for `end()`. -/
def mapFind (k : SOCKET) : List (SOCKET × Str) → Option Str
  | [] => none
  | (k', v) :: rest => if k = k' then some v else mapFind k rest

/-- The assignment `clientNicknames[k] = v`: replaces the binding of `k`, or
inserts it at its place in key order. -/
def mapInsert (k : SOCKET) (v : Str) : List (SOCKET × Str) → List (SOCKET × Str)
  | [] => [(k, v)]
  | (k', v') :: rest =>
    if k < k' then (k, v) :: (k', v') :: rest
    else if k = k' then (k, v) :: rest
    else (k', v') :: mapInsert k v rest

/-- The removal `clientNicknames.erase(k)`. -/
def mapErase (k : SOCKET) (m : List (SOCKET × Str)) : List (SOCKET × Str) :=
  m.filter (fun p => p.1 != k)

/-! ## Buffers and C strings -/

/-- The outcome of one `recv(clientSocket, buffer, BUFFER_SIZE, 0)`: the
returned count (`0` for a closed peer, negative for an error) and the bytes
it stored at the start of `buffer`. -/
structure RecvResult where
  ret : Int
  bytes : Str
  deriving DecidableEq, Repr

/-- The contents of `buffer` after `memset(buffer, 0, BUFFER_SIZE)` followed
by a `recv` that stored `bytes`. -/
def recvBuffer (bytes : Str) : Str :=
  (bytes ++ List.replicate (BUFFER_SIZE - bytes.length) NUL).take BUFFER_SIZE

/-- Reading `buffer` as a C string (`std::string(buffer)`, `... + buffer`):
the characters before the first `NUL`.  With no `NUL` in the array the read
leaves the array, which has no defined result. -/
def cstring (buf : Str) : Option Str :=
  if NUL ∈ buf then some (buf.takeWhile (fun c => c != NUL)) else none

/-! ## `broadcastMessage` (lines 24-32) -/

/-- The body of the `for` loop of `broadcastMessage` over the socket list. -/
def broadcastSends (message : Str) (senderSocket : SOCKET) : List SOCKET → List Event
  | [] => []
  | socket :: rest =>
    if socket ≠ senderSocket then
      Event.send socket message :: broadcastSends message senderSocket rest
    else
      broadcastSends message senderSocket rest

/-- The function `broadcastMessage`: the `lock_guard` is taken on entry, the
loop runs over `clientSockets` itself, and the guard is released on return. -/
def broadcastMessage (message : Str) (senderSocket : SOCKET) (st : Registry) :
    Registry × List Event :=
  (st, [Event.lock] ++ broadcastSends message senderSocket st.clientSockets ++ [Event.unlock])

/-! ## `handleClient` (lines 35-106) -/

/-- Lines 40-55, from the return of the first `recv` with result `r`. -/
def handshake (clientSocket : SOCKET) (r : RecvResult) (st : Registry) :
    Option (Registry × List Event) :=
  if r.ret > 0 then
    match cstring (recvBuffer r.bytes) with
    | none => none
    | some nickname =>
      let st1 : Registry :=
        { st with clientNicknames := mapInsert clientSocket nickname st.clientNicknames }
      let welcomeMsg := nickname ++ " has joined the chat!".toList
      let b := broadcastMessage welcomeMsg INVALID_SOCKET st1
      some (b.1, [Event.recv clientSocket, Event.lock, Event.unlock] ++ b.2 ++
        [Event.print welcomeMsg])
  else
    some (st, [Event.recv clientSocket])

/-- The text composed on lines 67-73. -/
def disconnectMsg (clientSocket : SOCKET) (st : Registry) : Str :=
  match mapFind clientSocket st.clientNicknames with
  | some nickname => nickname ++ " has left the chat!".toList
  | none => "A user has left the chat!".toList

/-- Lines 75-80: `std::find` and `erase` drop the first occurrence of the
handle from the vector, and the map drops its binding. -/
def removeClient (clientSocket : SOCKET) (st : Registry) : Registry :=
  { clientSockets := st.clientSockets.erase clientSocket
    clientNicknames := mapErase clientSocket st.clientNicknames }

/-- Lines 63-86, the branch `bytesReceived <= 0` of the message loop. -/
def teardown (clientSocket : SOCKET) (st : Registry) : Registry × List Event :=
  let msg := disconnectMsg clientSocket st
  let b := broadcastMessage msg INVALID_SOCKET (removeClient clientSocket st)
  (b.1, [Event.lock, Event.unlock] ++ b.2 ++ [Event.print msg, Event.closesocket clientSocket])

/-- The name chosen on lines 90-100. -/
def senderNickname (clientSocket : SOCKET) (st : Registry) : Str :=
  match mapFind clientSocket st.clientNicknames with
  | some nickname => nickname
  | none => "Unknown".toList

/-- One pass of the message loop (lines 59-105), from the return of `recv`
with result `r`.  The flag tells whether the loop was left by `break`. -/
def loopIteration (clientSocket : SOCKET) (r : RecvResult) (st : Registry) :
    Option (Bool × Registry × List Event) :=
  if r.ret ≤ 0 then
    let t := teardown clientSocket st
    some (true, t.1, Event.recv clientSocket :: t.2)
  else
    match cstring (recvBuffer r.bytes) with
    | none => none
    | some payload =>
      let message := senderNickname clientSocket st ++ ": ".toList ++ payload
      let b := broadcastMessage message clientSocket st
      some (false, b.1, [Event.recv clientSocket, Event.lock, Event.unlock] ++ b.2 ++
        [Event.print message])

/-- What one execution of `handleClient` has done so far. -/
structure Run where
  returned : Bool
  st : Registry
  trace : List Event
  deriving DecidableEq, Repr

/-- The loop `while (true)` of `handleClient`, fed the results of its
successive `recv` calls.  When the results run out before a `break` the
thread is blocked in `recv` and has not returned. -/
def messageLoop (clientSocket : SOCKET) : List RecvResult → Registry → Option Run
  | [], st => some ⟨false, st, []⟩
  | r :: rs, st =>
    match loopIteration clientSocket r st with
    | none => none
    | some (true, st1, tr) => some ⟨true, st1, tr⟩
    | some (false, st1, tr) =>
      match messageLoop clientSocket rs st1 with
      | none => none
      | some run => some ⟨run.returned, run.st, tr ++ run.trace⟩

/-- The function `handleClient`, fed the results of its successive `recv`
calls, run with no other thread touching the registry in between. -/
def handleClient (clientSocket : SOCKET) : List RecvResult → Registry → Option Run
  | [], st => some ⟨false, st, []⟩
  | r :: rs, st =>
    match handshake clientSocket r st with
    | none => none
    | some (st1, tr) =>
      match messageLoop clientSocket rs st1 with
      | none => none
      | some run => some ⟨run.returned, run.st, tr ++ run.trace⟩

/-! ## The accept loop of `startServer` (lines 153-188) -/

/-- The notice of line 164. -/
def serverFullMsg : Str := "Server is full. Please try again later.".toList

/-- Lines 154-172 for a socket returned by `accept`: the failure check, then
the capacity check and the `push_back`, both under the lock.  The first
component is the socket for which a thread is to be started next, if any. -/
def acceptStep (clientSocket : SOCKET) (st : Registry) :
    Option SOCKET × Registry × List Event :=
  if clientSocket = INVALID_SOCKET then
    (none, st, [])
  else if st.clientSockets.length ≥ MAX_CLIENTS then
    (none, st, [Event.lock, Event.send clientSocket serverFullMsg,
      Event.closesocket clientSocket, Event.unlock])
  else
    (some clientSocket, { st with clientSockets := st.clientSockets ++ [clientSocket] },
      [Event.lock, Event.unlock])

/-- Lines 174-187: the thread start; when `std::thread` throws, the `catch`
block takes the socket out of the vector again and closes it. -/
def startThread (clientSocket : SOCKET) (threadOk : Bool) (st : Registry) :
    Registry × List Event :=
  if threadOk then
    (st, [Event.spawn clientSocket])
  else
    ({ st with clientSockets := st.clientSockets.erase clientSocket },
      [Event.lock, Event.closesocket clientSocket, Event.unlock])

/-! ## The server as a transition system -/

/-- Where a `handleClient` thread stands: before its first `recv` has
returned, inside the message loop, or returned. -/
inductive Phase where
  | AwaitingHandshake
  | Active
  | Closed
  deriving DecidableEq, Repr

/-- One `handleClient` thread: its argument and its position. -/
structure Session where
  clientSocket : SOCKET
  phase : Phase
  deriving DecidableEq, Repr

/-- The whole server: the registry, the acceptor's socket between lines 172
and 175 (if it stands there), the threads in the order they were started,
and everything done so far. -/
structure Server where
  reg : Registry
  pending : Option SOCKET
  sessions : List Session
  trace : List Event
  deriving DecidableEq, Repr

/-- The server when the accept loop is entered. -/
def Server.init : Server := ⟨⟨[], []⟩, none, [], []⟩

/-- The moves of the server: `accept` returns a socket; the thread start for
the pending socket succeeds or throws; the blocked `recv` of thread `tid`
returns. -/
inductive Action where
  | accept (clientSocket : SOCKET)
  | spawn (threadOk : Bool)
  | recv (tid : Nat) (r : RecvResult)
  deriving DecidableEq, Repr

/-- One move of the server; `none` when the move is not possible in this
state or a buffer is read past its end.  A thread whose first `recv` has
returned is in the message loop, whatever that `recv` returned: line 58
follows the `if` of line 42 on both branches. -/
def step (a : Action) (s : Server) : Option Server :=
  match a with
  | Action.accept c =>
    match s.pending with
    | some _ => none
    | none =>
      let r := acceptStep c s.reg
      some { s with reg := r.2.1, pending := r.1, trace := s.trace ++ r.2.2 }
  | Action.spawn threadOk =>
    match s.pending with
    | none => none
    | some c =>
      let r := startThread c threadOk s.reg
      some { reg := r.1
             pending := none
             sessions :=
               if threadOk then s.sessions ++ [⟨c, Phase.AwaitingHandshake⟩] else s.sessions
             trace := s.trace ++ r.2 }
  | Action.recv tid r =>
    match s.sessions.get? tid with
    | none => none
    | some ⟨c, Phase.AwaitingHandshake⟩ =>
      match handshake c r s.reg with
      | none => none
      | some (reg1, tr) =>
        some { s with reg := reg1
                      sessions := s.sessions.set tid ⟨c, Phase.Active⟩
                      trace := s.trace ++ tr }
    | some ⟨c, Phase.Active⟩ =>
      match loopIteration c r s.reg with
      | none => none
      | some (left, reg1, tr) =>
        some { s with reg := reg1
                      sessions :=
                        s.sessions.set tid ⟨c, if left then Phase.Closed else Phase.Active⟩
                      trace := s.trace ++ tr }
    | some ⟨_, Phase.Closed⟩ => none

/-- A sequence of moves. -/
def run : List Action → Server → Option Server
  | [], s => some s
  | a :: as, s =>
    match step a s with
    | none => none
    | some s1 => run as s1

/-- The `send` events of a trace, as (recipient, text) pairs in order. -/
def sends : List Event → List (SOCKET × Str)
  | [] => []
  | Event.send s msg :: rest => (s, msg) :: sends rest
  | _ :: rest => sends rest

/-- The `send` events of a trace that are issued while `clientsMutex` is
held; the flag tells whether it is held at the start of the trace. -/
def sendsUnderLock : Bool → List Event → List (SOCKET × Str)
  | _, [] => []
  | _, Event.lock :: rest => sendsUnderLock true rest
  | _, Event.unlock :: rest => sendsUnderLock false rest
  | held, Event.send s msg :: rest =>
    if held then (s, msg) :: sendsUnderLock held rest else sendsUnderLock held rest
  | held, _ :: rest => sendsUnderLock held rest

/-- Whether a thread has not yet returned. -/
def Session.live (x : Session) : Bool :=
  match x.phase with
  | Phase.Closed => false
  | _ => true

/-- The sockets of the threads that have not yet returned, in start order. -/
def liveHandles (ss : List Session) : List SOCKET :=
  (ss.filter Session.live).map Session.clientSocket

/-- The keys of the nickname map. -/
def mapKeys (m : List (SOCKET × Str)) : List SOCKET :=
  m.map Prod.fst

/-- Whether every socket returned by `accept` along the moves is, at that
moment, no entry of `clientSockets` (the transport hands out no handle that
is still registered). -/
def freshAccepts : List Action → Server → Bool
  | [], _ => true
  | a :: as, s =>
    (match a with
      | Action.accept c => decide (c ∉ s.reg.clientSockets)
      | _ => true) &&
    (match step a s with
      | none => true
      | some s1 => freshAccepts as s1)

/-- The number of `closesocket` calls in a trace. -/
def closeCount : List Event → Nat
  | [] => 0
  | Event.closesocket _ :: rest => closeCount rest + 1
  | _ :: rest => closeCount rest

/-! # Theorems -/

/-! ## Broadcast -/

theorem broadcastSends_eq (m : Str) (H : SOCKET) (L : List SOCKET) :
    broadcastSends m H L = (L.filter (fun s => s != H)).map (fun s => Event.send s m) := by
  induction L with
  | nil => rfl
  | cons a L ih =>
    by_cases h : a = H
    · simp [broadcastSends, h, ih]
    · simp [broadcastSends, h, ih]

theorem filter_ne_of_not_mem (H : SOCKET) (L : List SOCKET) (h : H ∉ L) :
    L.filter (fun s => s != H) = L := by
  rw [List.filter_eq_self]
  intro a ha
  simp only [bne_iff_ne, ne_eq]
  rintro rfl
  exact h ha

theorem broadcastMessage_trace (m : Str) (H : SOCKET) (st : Registry) :
    (broadcastMessage m H st).2 =
      [Event.lock] ++ (st.clientSockets.filter (fun s => s != H)).map (fun s => Event.send s m)
        ++ [Event.unlock] := by
  simp [broadcastMessage, broadcastSends_eq]

theorem broadcastMessage_fst (m : Str) (H : SOCKET) (st : Registry) :
    (broadcastMessage m H st).1 = st := rfl

theorem sends_map_send (m : Str) (L : List SOCKET) :
    sends (L.map (fun s => Event.send s m)) = L.map (fun s => (s, m)) := by
  induction L with
  | nil => rfl
  | cons a L ih => simp [sends, ih]

theorem sends_append (xs ys : List Event) : sends (xs ++ ys) = sends xs ++ sends ys := by
  induction xs with
  | nil => rfl
  | cons e xs ih => cases e <;> simp [sends, ih]

/-- C1. `broadcastMessage(m, H)` sends `m` to exactly the entries of the socket list that differ
from `H`, once per entry and in list order, between taking and releasing the lock; no send goes
to `H`; when `H` is `INVALID_SOCKET` and that is no entry of the list, every entry receives `m`;
the registry is returned unchanged. -/
theorem broadcastMessage_spec (m : Str) (H : SOCKET) (st : Registry) :
    (broadcastMessage m H st).2 =
        [Event.lock] ++ (st.clientSockets.filter (fun s => s != H)).map (fun s => Event.send s m)
          ++ [Event.unlock]
      ∧ sends (broadcastMessage m H st).2 =
          (st.clientSockets.filter (fun s => s != H)).map (fun s => (s, m))
      ∧ (∀ msg, Event.send H msg ∉ (broadcastMessage m H st).2)
      ∧ (H = INVALID_SOCKET → INVALID_SOCKET ∉ st.clientSockets →
          sends (broadcastMessage m H st).2 = st.clientSockets.map (fun s => (s, m)))
      ∧ (broadcastMessage m H st).1 = st := by
  refine ⟨broadcastMessage_trace m H st, ?_, ?_, ?_, rfl⟩
  · rw [broadcastMessage_trace]
    simp [sends_append, sends_map_send, sends]
  · intro msg
    rw [broadcastMessage_trace]
    simp only [List.mem_append, List.mem_singleton, List.mem_map, List.mem_filter, bne_iff_ne,
      ne_eq, reduceCtorEq, false_or, or_false, not_exists, not_and, Event.send.injEq]
    intro x hx hne
    exact absurd hne hx.2
  · intro hH hnot
    rw [broadcastMessage_trace, hH, filter_ne_of_not_mem _ _ hnot]
    simp [sends_append, sends_map_send, sends]

theorem broadcastMessage_spec_witness :
    sends (broadcastMessage "yo".toList INVALID_SOCKET ⟨[1, 2], []⟩).2
      = [(1, "yo".toList), (2, "yo".toList)] :=
  (broadcastMessage_spec "yo".toList INVALID_SOCKET ⟨[1, 2], []⟩).2.2.2.1 rfl (by decide)


/-! ## The capacity check of the accept loop -/

/-- C3. When `clientSockets` holds `MAX_CLIENTS` (10) or more handles, the accept step for a
connection `c` sends exactly the full-server notice to `c` and to nobody else, closes `c`,
leaves no socket for which a thread is to be started, and leaves the registry as it was; with
fewer than 10 handles it appends `c` to the list, keeps the nickname map, and sends nothing. -/
theorem acceptStep_capacity (c : SOCKET) (st : Registry) (hc : c ≠ INVALID_SOCKET) :
    (MAX_CLIENTS ≤ st.clientSockets.length →
        acceptStep c st =
          (none, st, [Event.lock, Event.send c serverFullMsg, Event.closesocket c, Event.unlock])
        ∧ sends (acceptStep c st).2.2 = [(c, serverFullMsg)]
        ∧ serverFullMsg = "Server is full. Please try again later.".toList
        ∧ (∀ (ss : List Session) (tr : List Event),
            step (Action.accept c) ⟨st, none, ss, tr⟩ =
              some ⟨st, none, ss, tr ++
                [Event.lock, Event.send c serverFullMsg, Event.closesocket c, Event.unlock]⟩))
      ∧ (st.clientSockets.length < MAX_CLIENTS →
        (acceptStep c st).1 = some c
        ∧ (acceptStep c st).2.1.clientSockets = st.clientSockets ++ [c]
        ∧ (acceptStep c st).2.1.clientNicknames = st.clientNicknames
        ∧ sends (acceptStep c st).2.2 = []) := by
  constructor
  · intro hfull
    have h1 : acceptStep c st =
        (none, st, [Event.lock, Event.send c serverFullMsg, Event.closesocket c, Event.unlock]) := by
      simp [acceptStep, hc, hfull]
    refine ⟨h1, ?_, rfl, ?_⟩
    · rw [h1]; rfl
    · intro ss tr
      simp [step, h1]
  · intro hroom
    have h1 : acceptStep c st =
        (some c, { st with clientSockets := st.clientSockets ++ [c] },
          [Event.lock, Event.unlock]) := by
      simp [acceptStep, hc, Nat.not_le.mpr hroom]
    rw [h1]
    exact ⟨rfl, rfl, rfl, rfl⟩

theorem acceptStep_capacity_witness :
    sends (acceptStep 11 ⟨[1, 2, 3, 4, 5, 6, 7, 8, 9, 10], []⟩).2.2 = [(11, serverFullMsg)]
      ∧ (acceptStep 11 ⟨[1, 2], []⟩).2.1.clientSockets = [1, 2] ++ [11] :=
  ⟨((acceptStep_capacity 11 ⟨[1, 2, 3, 4, 5, 6, 7, 8, 9, 10], []⟩ (by decide)).1
      (by decide)).2.1,
    ((acceptStep_capacity 11 ⟨[1, 2], []⟩ (by decide)).2 (by decide)).2.1⟩

/-! ## The lock and the sends -/

theorem sendsUnderLock_true_map (m : Str) (L : List SOCKET) (rest : List Event) :
    sendsUnderLock true (L.map (fun s => Event.send s m) ++ rest) =
      L.map (fun s => (s, m)) ++ sendsUnderLock true rest := by
  induction L with
  | nil => rfl
  | cons a L ih => simp [sendsUnderLock, ih]

/-- C10 as stated fails: in `broadcastMessage` the send to the one registered socket is issued
while the lock is held, and so is the full-server notice of the accept loop. -/
theorem lock_released_before_send_fails :
    sendsUnderLock false (broadcastMessage "m".toList INVALID_SOCKET ⟨[1], []⟩).2
        = [(1, "m".toList)]
      ∧ (broadcastMessage "m".toList INVALID_SOCKET ⟨[1], []⟩).2
        = [Event.lock, Event.send 1 "m".toList, Event.unlock]
      ∧ sendsUnderLock false (acceptStep 11 ⟨[1, 2, 3, 4, 5, 6, 7, 8, 9, 10], []⟩).2.2
        = [(11, serverFullMsg)] := by
  decide

/-- C10 amended. `clientsMutex` is held across every send of `broadcastMessage`: the lock is
taken first, the sends go to the entries of `clientSockets` itself while it is held, and it is
released after the last send; the full-server notice of the accept loop is likewise sent with
the lock held. -/
theorem sends_issued_under_lock (m : Str) (H c : SOCKET) (st : Registry) :
    sendsUnderLock false (broadcastMessage m H st).2 = sends (broadcastMessage m H st).2
      ∧ (broadcastMessage m H st).2 =
          [Event.lock] ++ broadcastSends m H st.clientSockets ++ [Event.unlock]
      ∧ (c ≠ INVALID_SOCKET → MAX_CLIENTS ≤ st.clientSockets.length →
          sendsUnderLock false (acceptStep c st).2.2 = [(c, serverFullMsg)]
          ∧ (acceptStep c st).2.2 =
              [Event.lock, Event.send c serverFullMsg, Event.closesocket c, Event.unlock]) := by
  refine ⟨?_, rfl, ?_⟩
  · have key : ∀ xs : List Event,
        sendsUnderLock false ([Event.lock] ++ xs ++ [Event.unlock]) =
          sendsUnderLock true (xs ++ [Event.unlock]) := fun xs => rfl
    rw [broadcastMessage_trace, key, sendsUnderLock_true_map, sends_append, sends_append,
      sends_map_send]
    simp [sendsUnderLock, sends]
  · intro hc hfull
    have h1 : acceptStep c st =
        (none, st, [Event.lock, Event.send c serverFullMsg, Event.closesocket c, Event.unlock]) := by
      simp [acceptStep, hc, hfull]
    rw [h1]
    exact ⟨rfl, rfl⟩

theorem sends_issued_under_lock_witness :
    sendsUnderLock false (acceptStep 11 ⟨[1, 2, 3, 4, 5, 6, 7, 8, 9, 10], []⟩).2.2
      = [(11, serverFullMsg)] :=
  ((sends_issued_under_lock [] 0 11 ⟨[1, 2, 3, 4, 5, 6, 7, 8, 9, 10], []⟩).2.2
    (by decide) (by decide)).1

/-! ## Buffers -/

theorem takeWhile_append_replicate_NUL (l : Str) (k : Nat) :
    (l ++ List.replicate k NUL).takeWhile (fun c => c != NUL) =
      l.takeWhile (fun c => c != NUL) := by
  induction l with
  | nil =>
    cases k with
    | zero => rfl
    | succ k => simp [List.replicate_succ, List.takeWhile]
  | cons a l ih =>
    by_cases h : a = NUL
    · simp [List.takeWhile, h]
    · simp [List.takeWhile, h, ih]

theorem recvBuffer_eq (bytes : Str) (hlen : bytes.length ≤ BUFFER_SIZE) :
    recvBuffer bytes = bytes ++ List.replicate (BUFFER_SIZE - bytes.length) NUL := by
  unfold recvBuffer
  apply List.take_of_length_le
  simp only [List.length_append, List.length_replicate]
  omega

theorem takeWhile_eq_self_of_not_mem (bytes : Str) (h : NUL ∉ bytes) :
    bytes.takeWhile (fun c => c != NUL) = bytes := by
  rw [List.takeWhile_eq_self_iff]
  intro a ha
  simp only [bne_iff_ne, ne_eq]
  rintro rfl
  exact h ha

/-- Reading the buffer after a `recv` of at most `BUFFER_SIZE` bytes, when a terminator is
in reach: the bytes before the first `NUL`. -/
theorem cstring_recvBuffer (bytes : Str) (hlen : bytes.length ≤ BUFFER_SIZE)
    (ht : NUL ∈ bytes ∨ bytes.length < BUFFER_SIZE) :
    cstring (recvBuffer bytes) = some (bytes.takeWhile (fun c => c != NUL)) := by
  rw [recvBuffer_eq bytes hlen]
  have hmem : NUL ∈ bytes ++ List.replicate (BUFFER_SIZE - bytes.length) NUL := by
    rcases ht with h | h
    · exact List.mem_append_left _ h
    · apply List.mem_append_right
      rw [List.mem_replicate]
      exact ⟨by omega, rfl⟩
  simp only [cstring, hmem, if_true, takeWhile_append_replicate_NUL]

/-- A full buffer with no terminator: the C string read leaves the array. -/
theorem cstring_recvBuffer_full (bytes : Str) (hlen : bytes.length = BUFFER_SIZE)
    (ht : NUL ∉ bytes) : cstring (recvBuffer bytes) = none := by
  rw [recvBuffer_eq bytes (le_of_eq hlen)]
  simp [cstring, hlen, ht]

/-! ## The nickname map and the socket list -/

theorem mapFind_mapErase_self (k : SOCKET) (m : List (SOCKET × Str)) :
    mapFind k (mapErase k m) = none := by
  induction m with
  | nil => rfl
  | cons p m ih =>
    obtain ⟨k', v⟩ := p
    by_cases h : k' = k
    · simpa [mapErase, h] using ih
    · have h' : ¬ k = k' := fun e => h e.symm
      simpa [mapErase, List.filter_cons, h, mapFind, h'] using ih

theorem mapFind_mapErase_ne (k h : SOCKET) (m : List (SOCKET × Str)) (hk : k ≠ h) :
    mapFind k (mapErase h m) = mapFind k m := by
  induction m with
  | nil => rfl
  | cons p m ih =>
    obtain ⟨k', v⟩ := p
    by_cases e : k' = h
    · subst e
      simpa [mapErase, mapFind, hk] using ih
    · by_cases e2 : k = k'
      · simp [mapErase, List.filter_cons, e, mapFind, e2]
      · simpa [mapErase, List.filter_cons, e, mapFind, e2] using ih

theorem erase_eq_filter_of_count_le_one (h : SOCKET) (L : List SOCKET)
    (hc : L.count h ≤ 1) : L.erase h = L.filter (fun s => s != h) := by
  induction L with
  | nil => rfl
  | cons a L ih =>
    by_cases e : a = h
    · subst e
      have hz : L.count a = 0 := by
        simp only [List.count_cons_self] at hc
        omega
      have hnot : a ∉ L := List.count_eq_zero.mp hz
      simp [filter_ne_of_not_mem a L hnot]
    · have hc' : L.count h ≤ 1 := by
        rw [List.count_cons_of_ne (fun e2 => e e2.symm)] at hc
        exact hc
      have e' : (a == h) = false := by simpa using e
      simp [List.erase_cons, e', List.filter_cons, e, ih hc']

/-! ## One pass of the message loop -/

/-- C6 as stated fails: for the three received bytes `a`, `NUL`, `b` the broadcast text is
`al: a`, not the nickname followed by all three bytes. -/
theorem chat_payload_stops_at_NUL :
    loopIteration 1 ⟨3, ['a', NUL, 'b']⟩ ⟨[1, 2], [(1, "al".toList)]⟩ =
        some (false, ⟨[1, 2], [(1, "al".toList)]⟩,
          [Event.recv 1, Event.lock, Event.unlock, Event.lock, Event.send 2 "al: a".toList,
            Event.unlock, Event.print "al: a".toList])
      ∧ "al: a".toList ≠ "al".toList ++ ": ".toList ++ ['a', NUL, 'b'] := by
  decide

/-- C6 amended. For a read in the message loop that returns `n` bytes, `1 ≤ n ≤ BUFFER_SIZE`,
with a `NUL` among them or `n < BUFFER_SIZE`, the handler broadcasts exactly
`nickname ++ ": " ++ payload`, where `payload` is the received bytes before the first `NUL`
(all `n` bytes when none is `NUL`) and `nickname` is the name bound to the sender, or `Unknown`
when none is bound; the text goes to every registered handle except the sender, in list order,
the loop is not left, and the registry is unchanged. -/
theorem loopIteration_chat (clientSocket : SOCKET) (r : RecvResult) (st : Registry)
    (hn : r.ret = (r.bytes.length : Int)) (h1 : 1 ≤ r.ret) (h2 : r.ret ≤ (BUFFER_SIZE : Int))
    (ht : NUL ∈ r.bytes ∨ r.ret < (BUFFER_SIZE : Int)) :
    loopIteration clientSocket r st =
        some (false, st,
          [Event.recv clientSocket, Event.lock, Event.unlock, Event.lock] ++
            (st.clientSockets.filter (fun s => s != clientSocket)).map
              (fun s => Event.send s
                (senderNickname clientSocket st ++ ": ".toList ++
                  r.bytes.takeWhile (fun c => c != NUL))) ++
            [Event.unlock,
              Event.print (senderNickname clientSocket st ++ ": ".toList ++
                r.bytes.takeWhile (fun c => c != NUL))])
      ∧ (∀ name, mapFind clientSocket st.clientNicknames = some name →
          senderNickname clientSocket st = name)
      ∧ (mapFind clientSocket st.clientNicknames = none →
          senderNickname clientSocket st = "Unknown".toList)
      ∧ (NUL ∉ r.bytes → r.bytes.takeWhile (fun c => c != NUL) = r.bytes) := by
  have hlen : r.bytes.length ≤ BUFFER_SIZE := by omega
  have ht' : NUL ∈ r.bytes ∨ r.bytes.length < BUFFER_SIZE := by
    rcases ht with h | h
    · exact Or.inl h
    · exact Or.inr (by omega)
  have hpos : ¬ r.ret ≤ 0 := by omega
  refine ⟨?_, ?_, ?_, takeWhile_eq_self_of_not_mem r.bytes⟩
  · simp only [loopIteration, hpos, if_false, cstring_recvBuffer r.bytes hlen ht',
      broadcastMessage_trace, broadcastMessage_fst]
    simp
  · intro name hname
    simp [senderNickname, hname]
  · intro hnone
    simp [senderNickname, hnone]

theorem loopIteration_chat_witness :
    loopIteration 1 ⟨2, "hi".toList⟩ ⟨[1, 2, 3], [(1, "al".toList)]⟩ =
      some (false, ⟨[1, 2, 3], [(1, "al".toList)]⟩,
        [Event.recv 1, Event.lock, Event.unlock, Event.lock, Event.send 2 "al: hi".toList,
          Event.send 3 "al: hi".toList, Event.unlock, Event.print "al: hi".toList]) :=
  (loopIteration_chat 1 ⟨2, "hi".toList⟩ ⟨[1, 2, 3], [(1, "al".toList)]⟩
    (by decide) (by decide) (by decide) (Or.inr (by decide))).1

/-- Teardown on a registry whose socket list holds `h` at most once and does not hold
`INVALID_SOCKET`: `h` leaves the list and the map, the other entries and bindings stay, the
leave text goes to every handle left in the list, and `h` is closed last. -/
theorem teardown_of_unique (h : SOCKET) (r : RecvResult) (st : Registry)
    (hr : r.ret ≤ 0) (hc : st.clientSockets.count h ≤ 1)
    (hi : INVALID_SOCKET ∉ st.clientSockets) :
    ∃ st1 : Registry,
      loopIteration h r st =
          some (true, st1,
            [Event.recv h, Event.lock, Event.unlock, Event.lock] ++
              st1.clientSockets.map (fun s => Event.send s (disconnectMsg h st)) ++
              [Event.unlock, Event.print (disconnectMsg h st), Event.closesocket h])
        ∧ st1.clientSockets = st.clientSockets.filter (fun s => s != h)
        ∧ h ∉ st1.clientSockets
        ∧ mapFind h st1.clientNicknames = none
        ∧ (∀ k, k ≠ h → mapFind k st1.clientNicknames = mapFind k st.clientNicknames)
        ∧ (∀ name, mapFind h st.clientNicknames = some name →
            disconnectMsg h st = name ++ " has left the chat!".toList)
        ∧ (mapFind h st.clientNicknames = none →
            disconnectMsg h st = "A user has left the chat!".toList) := by
  have herase := erase_eq_filter_of_count_le_one h st.clientSockets hc
  have hi' : INVALID_SOCKET ∉ st.clientSockets.erase h :=
    fun hm => hi (List.mem_of_mem_erase hm)
  refine ⟨removeClient h st, ?_, herase, ?_, mapFind_mapErase_self h _,
    fun k hk => mapFind_mapErase_ne k h _ hk, ?_, ?_⟩
  · simp only [loopIteration, hr, if_true, teardown, broadcastMessage_trace,
      broadcastMessage_fst]
    have hf : (removeClient h st).clientSockets.filter (fun s => s != INVALID_SOCKET) =
        (removeClient h st).clientSockets := filter_ne_of_not_mem _ _ hi'
    rw [hf]
    simp
  · show h ∉ st.clientSockets.erase h
    rw [herase]
    simp
  · intro name hname
    simp [disconnectMsg, hname]
  · intro hnone
    simp [disconnectMsg, hnone]

/-! ## `handleClient` as a whole -/

theorem closeCount_append (xs ys : List Event) :
    closeCount (xs ++ ys) = closeCount xs + closeCount ys := by
  induction xs with
  | nil => simp [closeCount]
  | cons e xs ih => cases e <;> simp [closeCount, ih]; omega

theorem closeCount_map_send (m : Str) (L : List SOCKET) :
    closeCount (L.map (fun s => Event.send s m)) = 0 := by
  induction L with
  | nil => rfl
  | cons a L ih => simpa [closeCount] using ih

theorem closeCount_broadcastSends (m : Str) (H : SOCKET) (L : List SOCKET) :
    closeCount (broadcastSends m H L) = 0 := by
  rw [broadcastSends_eq]
  exact closeCount_map_send m _

theorem closeCount_broadcastMessage (m : Str) (H : SOCKET) (st : Registry) :
    closeCount (broadcastMessage m H st).2 = 0 := by
  rw [broadcastMessage_trace]
  simp [closeCount_append, closeCount_map_send, closeCount]

theorem loopIteration_left (clientSocket : SOCKET) (r : RecvResult) (st st1 : Registry)
    (tr : List Event) (h : loopIteration clientSocket r st = some (true, st1, tr)) :
    r.ret ≤ 0 ∧ st1 = (teardown clientSocket st).1
      ∧ tr = Event.recv clientSocket :: (teardown clientSocket st).2 := by
  unfold loopIteration at h
  split at h
  · rename_i hr
    simp only [Option.some.injEq, Prod.mk.injEq, true_and] at h
    exact ⟨hr, h.1.symm, h.2.symm⟩
  · split at h
    · exact absurd h (by simp)
    · simp at h

theorem loopIteration_stays (clientSocket : SOCKET) (r : RecvResult) (st st1 : Registry)
    (tr : List Event) (h : loopIteration clientSocket r st = some (false, st1, tr)) :
    0 < r.ret ∧ st1 = st ∧ closeCount tr = 0 := by
  unfold loopIteration at h
  split at h
  · simp at h
  · rename_i hr
    split at h
    · exact absurd h (by simp)
    · simp only [Option.some.injEq, Prod.mk.injEq, true_and] at h
      refine ⟨by omega, h.1.symm, ?_⟩
      rw [← h.2]
      simp [closeCount_append, closeCount_broadcastMessage, closeCount_broadcastSends, closeCount]

/-- C5 as stated fails: after a first read that returns 0 the handler reads again, and a second
read that returns `hi` is broadcast as the chat line `Unknown: hi`. -/
theorem failed_first_read_reads_again :
    handleClient 1 [⟨0, []⟩, ⟨2, "hi".toList⟩, ⟨0, []⟩] ⟨[1, 2], []⟩ =
      some ⟨true, ⟨[2], []⟩,
        [Event.recv 1,
          Event.recv 1, Event.lock, Event.unlock, Event.lock,
          Event.send 2 "Unknown: hi".toList, Event.unlock, Event.print "Unknown: hi".toList,
          Event.recv 1, Event.lock, Event.unlock, Event.lock,
          Event.send 2 "A user has left the chat!".toList, Event.unlock,
          Event.print "A user has left the chat!".toList, Event.closesocket 1]⟩ := by
  decide

/-- C5 amended. When the first read of a session is non-positive, `handleClient` stores no
nickname and broadcasts no join announcement (the handshake leaves the registry as it was and
does nothing but the read), and then enters the message loop as it does after a successful
handshake: it reads again; a second read that is non-positive runs teardown and the handler
returns, and a second read that returns data is broadcast as a chat line to every other
registered handle, under the name `Unknown` when no name is bound to the handle. -/
theorem handleClient_failed_first_read (clientSocket : SOCKET) (r : RecvResult)
    (rs : List RecvResult) (st : Registry) (hr : r.ret ≤ 0) :
    handshake clientSocket r st = some (st, [Event.recv clientSocket])
      ∧ handleClient clientSocket (r :: rs) st =
          (messageLoop clientSocket rs st).map
            (fun run => ⟨run.returned, run.st, Event.recv clientSocket :: run.trace⟩)
      ∧ (∀ (r2 : RecvResult) (rest : List RecvResult), r2.ret ≤ 0 →
          handleClient clientSocket (r :: r2 :: rest) st =
            some ⟨true, (teardown clientSocket st).1,
              Event.recv clientSocket :: Event.recv clientSocket ::
                (teardown clientSocket st).2⟩)
      ∧ (∀ (r2 : RecvResult) (payload : Str), 0 < r2.ret →
          cstring (recvBuffer r2.bytes) = some payload →
          handleClient clientSocket [r, r2] st =
            some ⟨false, st,
              [Event.recv clientSocket,
                Event.recv clientSocket, Event.lock, Event.unlock, Event.lock] ++
                (st.clientSockets.filter (fun s => s != clientSocket)).map
                  (fun s => Event.send s
                    (senderNickname clientSocket st ++ ": ".toList ++ payload)) ++
                [Event.unlock,
                  Event.print (senderNickname clientSocket st ++ ": ".toList ++ payload)]⟩)
      ∧ (mapFind clientSocket st.clientNicknames = none →
          senderNickname clientSocket st = "Unknown".toList) := by
  have hneg : ¬ r.ret > 0 := by omega
  have hs : handshake clientSocket r st = some (st, [Event.recv clientSocket]) := by
    simp [handshake, hneg]
  refine ⟨hs, ?_, ?_, ?_, ?_⟩
  · simp only [handleClient, hs]
    cases messageLoop clientSocket rs st <;> simp
  · intro r2 rest h2
    simp [handleClient, hs, messageLoop, loopIteration, h2]
  · intro r2 payload h2 hp
    have h2' : ¬ r2.ret ≤ 0 := by omega
    simp [handleClient, hs, messageLoop, loopIteration, h2', hp, broadcastMessage_trace,
      broadcastMessage_fst]
  · intro hnone
    simp [senderNickname, hnone]

theorem handleClient_failed_first_read_witness :
    handleClient 1 [⟨0, []⟩, ⟨-1, []⟩] ⟨[1, 2], []⟩ =
      some ⟨true, (teardown 1 ⟨[1, 2], []⟩).1,
        Event.recv 1 :: Event.recv 1 :: (teardown 1 ⟨[1, 2], []⟩).2⟩ :=
  (handleClient_failed_first_read 1 ⟨0, []⟩ [⟨-1, []⟩] ⟨[1, 2], []⟩ (by decide)).2.2.1
    ⟨-1, []⟩ [] (by decide)

/-! ## The threads that have not returned -/

theorem liveHandles_cons (x : Session) (ss : List Session) :
    liveHandles (x :: ss) =
      if x.live then x.clientSocket :: liveHandles ss else liveHandles ss := by
  unfold liveHandles
  by_cases h : x.live = true <;> simp [List.filter_cons, h]

theorem liveHandles_append (xs ys : List Session) :
    liveHandles (xs ++ ys) = liveHandles xs ++ liveHandles ys := by
  simp [liveHandles]

theorem mem_liveHandles_iff (h : SOCKET) (ss : List Session) :
    h ∈ liveHandles ss ↔ ∃ x ∈ ss, x.clientSocket = h ∧ x.live = true := by
  simp only [liveHandles, List.mem_map, List.mem_filter]
  constructor
  · rintro ⟨x, ⟨hx, hl⟩, e⟩
    exact ⟨x, hx, e, hl⟩
  · rintro ⟨x, hx, e, hl⟩
    exact ⟨x, ⟨hx, hl⟩, e⟩

theorem mem_liveHandles_of_get (ss : List Session) (tid : Nat) (x : Session)
    (hg : ss.get? tid = some x) (hl : x.live = true) : x.clientSocket ∈ liveHandles ss :=
  (mem_liveHandles_iff _ _).mpr ⟨x, List.get?_mem hg, rfl, hl⟩

theorem liveHandles_set_live (ss : List Session) :
    ∀ (tid : Nat) (x y : Session), ss.get? tid = some x → x.live = true → y.live = true →
      y.clientSocket = x.clientSocket → liveHandles (ss.set tid y) = liveHandles ss := by
  induction ss with
  | nil => intro tid x y hg; simp at hg
  | cons a ss ih =>
    intro tid x y hg hx hy hxy
    cases tid with
    | zero =>
      simp only [List.get?_cons_zero, Option.some.injEq] at hg
      subst hg
      simp [liveHandles_cons, hx, hy, hxy]
    | succ n =>
      simp only [List.get?_cons_succ] at hg
      simp only [List.set_cons_succ, liveHandles_cons, ih n x y hg hx hy hxy]

theorem liveHandles_set_closed (ss : List Session) :
    ∀ (tid : Nat) (x y : Session), ss.get? tid = some x → x.live = true → y.live = false →
      List.Perm (liveHandles (ss.set tid y)) ((liveHandles ss).erase x.clientSocket) := by
  induction ss with
  | nil => intro tid x y hg; simp at hg
  | cons a ss ih =>
    intro tid x y hg hx hy
    cases tid with
    | zero =>
      simp only [List.get?_cons_zero, Option.some.injEq] at hg
      subst hg
      simp [liveHandles_cons, hx, hy]
    | succ n =>
      simp only [List.get?_cons_succ] at hg
      have hmem := mem_liveHandles_of_get ss n x hg hx
      have hrec := ih n x y hg hx hy
      simp only [List.set_cons_succ, liveHandles_cons]
      by_cases ha : a.live = true
      · simp only [ha, if_true]
        by_cases e : a.clientSocket = x.clientSocket
        · rw [e, List.erase_cons_head]
          exact (hrec.cons x.clientSocket).trans (List.perm_cons_erase hmem).symm
        · rw [List.erase_cons_tail (by simpa using e)]
          exact hrec.cons a.clientSocket
      · simp only [ha]
        exact hrec

theorem mem_mapKeys_mapInsert (k c : SOCKET) (v : Str) (m : List (SOCKET × Str)) :
    k ∈ mapKeys (mapInsert c v m) ↔ k = c ∨ k ∈ mapKeys m := by
  induction m with
  | nil => simp [mapInsert, mapKeys]
  | cons p m ih =>
    obtain ⟨k', v'⟩ := p
    simp only [mapKeys] at ih
    by_cases h1 : c < k'
    · simp [mapInsert, h1, mapKeys]
    · by_cases h2 : c = k'
      · subst h2
        simp [mapInsert, mapKeys]
      · simp only [mapInsert, h1, h2, if_false, mapKeys, List.map_cons, List.mem_cons, ih]
        tauto

theorem mem_mapKeys_mapErase (k h : SOCKET) (m : List (SOCKET × Str)) :
    k ∈ mapKeys (mapErase h m) ↔ k ≠ h ∧ k ∈ mapKeys m := by
  simp only [mapKeys, mapErase, List.mem_map, List.mem_filter, bne_iff_ne, ne_eq]
  constructor
  · rintro ⟨p, ⟨hp, hne⟩, rfl⟩
    exact ⟨hne, p, hp, rfl⟩
  · rintro ⟨hne, p, hp, rfl⟩
    exact ⟨p, ⟨hp, hne⟩, rfl⟩

/-! ## The moves of the server -/

theorem handshake_sockets (c : SOCKET) (r : RecvResult) (reg reg1 : Registry)
    (tr : List Event) (h : handshake c r reg = some (reg1, tr)) :
    reg1.clientSockets = reg.clientSockets
      ∧ (∀ k, k ∈ mapKeys reg1.clientNicknames → k = c ∨ k ∈ mapKeys reg.clientNicknames) := by
  unfold handshake at h
  split at h
  · split at h
    · exact absurd h (by simp)
    · simp only [Option.some.injEq, Prod.mk.injEq, broadcastMessage_fst] at h
      rw [← h.1]
      refine ⟨rfl, fun k hk => ?_⟩
      exact (mem_mapKeys_mapInsert k c _ _).mp hk
  · simp only [Option.some.injEq, Prod.mk.injEq] at h
    rw [← h.1]
    exact ⟨rfl, fun k hk => Or.inr hk⟩

/-- The four ways a move can succeed. -/
theorem step_cases (a : Action) (s s1 : Server) (h : step a s = some s1) :
    (∃ c, a = Action.accept c ∧ s.pending = none ∧
        s1 = { s with reg := (acceptStep c s.reg).2.1, pending := (acceptStep c s.reg).1,
                      trace := s.trace ++ (acceptStep c s.reg).2.2 })
    ∨ (∃ ok c, a = Action.spawn ok ∧ s.pending = some c ∧
        s1 = { reg := (startThread c ok s.reg).1, pending := none,
               sessions :=
                 if ok then s.sessions ++ [⟨c, Phase.AwaitingHandshake⟩] else s.sessions,
               trace := s.trace ++ (startThread c ok s.reg).2 })
    ∨ (∃ tid r c reg1 tr, a = Action.recv tid r ∧
        s.sessions.get? tid = some ⟨c, Phase.AwaitingHandshake⟩ ∧
        handshake c r s.reg = some (reg1, tr) ∧
        s1 = { s with reg := reg1, sessions := s.sessions.set tid ⟨c, Phase.Active⟩,
                      trace := s.trace ++ tr })
    ∨ (∃ tid r c left reg1 tr, a = Action.recv tid r ∧
        s.sessions.get? tid = some ⟨c, Phase.Active⟩ ∧
        loopIteration c r s.reg = some (left, reg1, tr) ∧
        s1 = { s with reg := reg1,
                      sessions :=
                        s.sessions.set tid ⟨c, if left then Phase.Closed else Phase.Active⟩,
                      trace := s.trace ++ tr }) := by
  cases a with
  | accept c =>
    left
    simp only [step] at h
    cases hp : s.pending with
    | some p => simp [hp] at h
    | none =>
      simp only [hp, Option.some.injEq] at h
      exact ⟨c, rfl, rfl, by rw [← h]⟩
  | spawn ok =>
    right; left
    simp only [step] at h
    cases hp : s.pending with
    | none => simp [hp] at h
    | some c =>
      simp only [hp, Option.some.injEq] at h
      exact ⟨ok, c, rfl, rfl, h.symm⟩
  | recv tid r =>
    right; right
    simp only [step, List.get?_eq_getElem?] at h
    cases hg : s.sessions[tid]? with
    | none => simp [hg] at h
    | some x =>
      obtain ⟨c, ph⟩ := x
      have hg1 : s.sessions.get? tid = some ⟨c, ph⟩ := by
        rw [List.get?_eq_getElem?]; exact hg
      cases ph with
      | AwaitingHandshake =>
        left
        simp only [hg] at h
        cases hh : handshake c r s.reg with
        | none => simp [hh] at h
        | some res =>
          obtain ⟨reg1, tr⟩ := res
          simp only [hh, Option.some.injEq] at h
          exact ⟨tid, r, c, reg1, tr, rfl, hg1, hh, h.symm⟩
      | Active =>
        right
        simp only [hg] at h
        cases hh : loopIteration c r s.reg with
        | none => simp [hh] at h
        | some res =>
          obtain ⟨left, reg1, tr⟩ := res
          simp only [hh, Option.some.injEq] at h
          exact ⟨tid, r, c, left, reg1, tr, rfl, hg1, hh, h.symm⟩
      | Closed => simp [hg] at h

/-! ## Invariants of the server -/

theorem acceptStep_cases (c : SOCKET) (reg : Registry) :
    ((acceptStep c reg).1 = none ∧ (acceptStep c reg).2.1 = reg)
    ∨ ((acceptStep c reg).1 = some c
        ∧ (acceptStep c reg).2.1.clientSockets = reg.clientSockets ++ [c]
        ∧ (acceptStep c reg).2.1.clientNicknames = reg.clientNicknames) := by
  unfold acceptStep
  split
  · exact Or.inl ⟨rfl, rfl⟩
  · split
    · exact Or.inl ⟨rfl, rfl⟩
    · exact Or.inr ⟨rfl, rfl, rfl⟩

theorem loopIteration_registry (c : SOCKET) (r : RecvResult) (reg reg1 : Registry)
    (left : Bool) (tr : List Event) (h : loopIteration c r reg = some (left, reg1, tr)) :
    reg1 = if left then removeClient c reg else reg := by
  cases left with
  | true => exact (loopIteration_left c r reg reg1 tr h).2.1
  | false => exact (loopIteration_stays c r reg reg1 tr h).2.1

theorem erase_append_singleton_perm (c : SOCKET) (L : List SOCKET) :
    List.Perm ((L ++ [c]).erase c) L := by
  by_cases hc : c ∈ L
  · rw [List.erase_append_left _ hc]
    exact (List.perm_append_singleton c (L.erase c)).trans (List.perm_cons_erase hc).symm
  · rw [List.erase_append_right _ hc]
    simp

/-- Every move keeps the socket list equal, up to order, to the sockets of the threads that
have not returned followed by the socket pending at the acceptor. -/
theorem step_perm (a : Action) (s s1 : Server) (h : step a s = some s1)
    (hp : List.Perm s.reg.clientSockets (liveHandles s.sessions ++ s.pending.toList)) :
    List.Perm s1.reg.clientSockets (liveHandles s1.sessions ++ s1.pending.toList) := by
  rcases step_cases a s s1 h with
    ⟨c, -, hpend, rfl⟩ | ⟨ok, c, -, hpend, rfl⟩ | ⟨tid, r, c, reg1, tr, -, hg, hh, rfl⟩ |
    ⟨tid, r, c, left, reg1, tr, -, hg, hh, rfl⟩
  · rw [hpend] at hp
    rcases acceptStep_cases c s.reg with ⟨h1, h2⟩ | ⟨h1, h2, -⟩
    · simp only [h1, h2]
      exact hp
    · simp only [h1, h2]
      simp only [Option.toList, List.append_nil] at hp ⊢
      exact hp.append_right [c]
  · rw [hpend] at hp
    simp only [Option.toList] at hp
    cases ok with
    | true =>
      simp only [startThread, if_true, liveHandles_append, Option.toList, List.append_nil]
      simpa [liveHandles_cons, Session.live] using hp
    | false =>
      simp only [startThread, Option.toList, List.append_nil]
      exact (hp.erase c).trans (erase_append_singleton_perm c _)
  · have hs := (handshake_sockets c r s.reg reg1 tr hh).1
    simp only [hs]
    rw [liveHandles_set_live s.sessions tid ⟨c, Phase.AwaitingHandshake⟩ ⟨c, Phase.Active⟩
      hg rfl rfl rfl]
    exact hp
  · have hreg := loopIteration_registry c r s.reg reg1 left tr hh
    cases left with
    | false =>
      simp only [Bool.false_eq_true, if_false] at hreg ⊢
      rw [hreg, liveHandles_set_live s.sessions tid ⟨c, Phase.Active⟩ ⟨c, Phase.Active⟩
        hg rfl rfl rfl]
      exact hp
    | true =>
      simp only [if_true] at hreg ⊢
      rw [hreg]
      have hmem : c ∈ liveHandles s.sessions :=
        mem_liveHandles_of_get s.sessions tid ⟨c, Phase.Active⟩ hg rfl
      have hclosed := liveHandles_set_closed s.sessions tid ⟨c, Phase.Active⟩
        ⟨c, Phase.Closed⟩ hg rfl rfl
      have h1 : List.Perm (s.reg.clientSockets.erase c)
          ((liveHandles s.sessions).erase c ++ s.pending.toList) := by
        have := hp.erase c
        rwa [List.erase_append_left _ hmem] at this
      exact h1.trans (hclosed.symm.append_right _)

/-- With fresh sockets from `accept`, every move keeps the socket list free of repetitions
and keeps every key of the nickname map among the sockets of the threads that have not
returned. -/
theorem step_nodup_keys (a : Action) (s s1 : Server) (h : step a s = some s1)
    (hfresh : ∀ c, a = Action.accept c → c ∉ s.reg.clientSockets)
    (hn : s.reg.clientSockets.Nodup)
    (hk : ∀ k, k ∈ mapKeys s.reg.clientNicknames → k ∈ liveHandles s.sessions) :
    s1.reg.clientSockets.Nodup
      ∧ (∀ k, k ∈ mapKeys s1.reg.clientNicknames → k ∈ liveHandles s1.sessions) := by
  rcases step_cases a s s1 h with
    ⟨c, ha, hpend, rfl⟩ | ⟨ok, c, -, hpend, rfl⟩ | ⟨tid, r, c, reg1, tr, -, hg, hh, rfl⟩ |
    ⟨tid, r, c, left, reg1, tr, -, hg, hh, rfl⟩
  · rcases acceptStep_cases c s.reg with ⟨-, h2⟩ | ⟨-, h2, h3⟩
    · simp only [h2]
      exact ⟨hn, hk⟩
    · simp only [h2, h3]
      refine ⟨?_, hk⟩
      have hc := hfresh c ha
      exact List.Nodup.append hn (List.nodup_singleton c) (by simpa using hc)
  · cases ok with
    | true =>
      simp only [startThread, if_true, liveHandles_append]
      exact ⟨hn, fun k hkk => List.mem_append_left _ (hk k hkk)⟩
    | false =>
      simp only [startThread]
      exact ⟨hn.erase c, hk⟩
  · obtain ⟨hs, hkeys⟩ := handshake_sockets c r s.reg reg1 tr hh
    simp only [hs]
    rw [liveHandles_set_live s.sessions tid ⟨c, Phase.AwaitingHandshake⟩ ⟨c, Phase.Active⟩
      hg rfl rfl rfl]
    refine ⟨hn, fun k hkk => ?_⟩
    rcases hkeys k hkk with e | e
    · rw [e]
      exact mem_liveHandles_of_get s.sessions tid ⟨c, Phase.AwaitingHandshake⟩ hg rfl
    · exact hk k e
  · have hreg := loopIteration_registry c r s.reg reg1 left tr hh
    cases left with
    | false =>
      simp only [Bool.false_eq_true, if_false] at hreg ⊢
      rw [hreg, liveHandles_set_live s.sessions tid ⟨c, Phase.Active⟩ ⟨c, Phase.Active⟩
        hg rfl rfl rfl]
      exact ⟨hn, hk⟩
    | true =>
      simp only [if_true] at hreg ⊢
      rw [hreg]
      have hclosed := liveHandles_set_closed s.sessions tid ⟨c, Phase.Active⟩
        ⟨c, Phase.Closed⟩ hg rfl rfl
      refine ⟨hn.erase c, fun k hkk => ?_⟩
      obtain ⟨hne, hin⟩ := (mem_mapKeys_mapErase k c _).mp hkk
      exact hclosed.symm.subset ((List.mem_erase_of_ne hne).mpr (hk k hin))

theorem run_perm (acts : List Action) :
    ∀ s s1 : Server, run acts s = some s1 →
      List.Perm s.reg.clientSockets (liveHandles s.sessions ++ s.pending.toList) →
      List.Perm s1.reg.clientSockets (liveHandles s1.sessions ++ s1.pending.toList) := by
  induction acts with
  | nil =>
    intro s s1 h hp
    simp only [run, Option.some.injEq] at h
    rw [← h]
    exact hp
  | cons a acts ih =>
    intro s s1 h hp
    simp only [run] at h
    cases hs : step a s with
    | none => simp [hs] at h
    | some s2 =>
      simp only [hs] at h
      exact ih s2 s1 h (step_perm a s s2 hs hp)

theorem run_nodup_keys (acts : List Action) :
    ∀ s s1 : Server, run acts s = some s1 → freshAccepts acts s = true →
      List.Perm s.reg.clientSockets (liveHandles s.sessions ++ s.pending.toList) →
      s.reg.clientSockets.Nodup →
      (∀ k, k ∈ mapKeys s.reg.clientNicknames → k ∈ liveHandles s.sessions) →
      s1.reg.clientSockets.Nodup
        ∧ (∀ k, k ∈ mapKeys s1.reg.clientNicknames → k ∈ liveHandles s1.sessions) := by
  induction acts with
  | nil =>
    intro s s1 h _ _ hn hk
    simp only [run, Option.some.injEq] at h
    rw [← h]
    exact ⟨hn, hk⟩
  | cons a acts ih =>
    intro s s1 h hf hp hn hk
    simp only [run] at h
    cases hs : step a s with
    | none => simp [hs] at h
    | some s2 =>
      simp only [hs] at h
      simp only [freshAccepts, hs, Bool.and_eq_true] at hf
      have hfresh : ∀ c, a = Action.accept c → c ∉ s.reg.clientSockets := by
        intro c hc
        subst hc
        simpa using hf.1
      obtain ⟨hn2, hk2⟩ := step_nodup_keys a s s2 hs hfresh hn hk
      exact ih s2 s1 h hf.2 (step_perm a s s2 hs hp) hn2 hk2

theorem mem_sockets_iff (s : Server)
    (hp : List.Perm s.reg.clientSockets (liveHandles s.sessions ++ s.pending.toList))
    (h : SOCKET) :
    h ∈ s.reg.clientSockets ↔
      (s.pending = some h ∨ ∃ x ∈ s.sessions, x.clientSocket = h ∧ x.phase ≠ Phase.Closed) := by
  rw [hp.mem_iff, List.mem_append, mem_liveHandles_iff]
  have hlive : ∀ x : Session, x.live = true ↔ x.phase ≠ Phase.Closed := by
    intro x
    cases hx : x.phase <;> simp [Session.live, hx]
  constructor
  · rintro (⟨x, hx, e, hl⟩ | hpend)
    · exact Or.inr ⟨x, hx, e, (hlive x).mp hl⟩
    · left
      cases hpd : s.pending with
      | none => simp [hpd] at hpend
      | some c =>
        simp only [hpd, Option.toList, List.mem_singleton] at hpend
        rw [hpend]
  · rintro (hpend | ⟨x, hx, e, hl⟩)
    · right
      simp [hpend]
    · exact Or.inl ⟨x, hx, e, (hlive x).mpr hl⟩

/-! ## Reachable states and the two-client scenario -/

/-- C8. After any sequence of accept, thread-start (success or failure), handshake,
message-read and teardown moves from the empty registry in which every accepted handle is at
that moment no entry of the socket list, the socket list holds no handle twice; its entries
are exactly the handle pending at the acceptor (admitted, thread not yet started) and the
handles of the threads that were started and have not run teardown; and every key of the
nickname map is an entry of the socket list. -/
theorem registry_matches_sessions (acts : List Action) (s : Server)
    (hrun : run acts Server.init = some s) (hfresh : freshAccepts acts Server.init = true) :
    s.reg.clientSockets.Nodup
      ∧ List.Perm s.reg.clientSockets (liveHandles s.sessions ++ s.pending.toList)
      ∧ (∀ h, h ∈ s.reg.clientSockets ↔
          (s.pending = some h ∨
            ∃ x ∈ s.sessions, x.clientSocket = h ∧ x.phase ≠ Phase.Closed))
      ∧ (∀ k, k ∈ mapKeys s.reg.clientNicknames → k ∈ s.reg.clientSockets) := by
  have hp0 : List.Perm Server.init.reg.clientSockets
      (liveHandles Server.init.sessions ++ Server.init.pending.toList) := List.Perm.refl _
  have hp := run_perm acts Server.init s hrun hp0
  obtain ⟨hn, hk⟩ := run_nodup_keys acts Server.init s hrun hfresh hp0 List.nodup_nil
    (fun k hk => by simp [Server.init, mapKeys] at hk)
  refine ⟨hn, hp, mem_sockets_iff s hp, fun k hkk => ?_⟩
  exact hp.symm.subset (List.mem_append_left _ (hk k hkk))

theorem registry_matches_sessions_witness :
    ∃ s : Server,
      run [Action.accept 1, Action.spawn true, Action.recv 0 ⟨5, "alice".toList⟩,
          Action.accept 2, Action.spawn false, Action.accept 3, Action.spawn true,
          Action.recv 0 ⟨0, []⟩, Action.accept 1] Server.init = some s
        ∧ s.reg.clientSockets.Nodup
        ∧ (∀ k, k ∈ mapKeys s.reg.clientNicknames → k ∈ s.reg.clientSockets) := by
  have hs : ∃ s : Server,
      run [Action.accept 1, Action.spawn true, Action.recv 0 ⟨5, "alice".toList⟩,
          Action.accept 2, Action.spawn false, Action.accept 3, Action.spawn true,
          Action.recv 0 ⟨0, []⟩, Action.accept 1] Server.init = some s := by
    simp only [Option.isSome_iff_exists.symm]
    decide
  obtain ⟨s, hrun⟩ := hs
  have key := registry_matches_sessions _ s hrun (by decide)
  exact ⟨s, hrun, key.1, key.2.2.2⟩

/-- C4 as stated fails: after the accepts of sockets 1 and 2 and the nickname of socket 2,
socket 1 is an entry of the socket list although its thread still awaits the handshake and
no name is bound to it, and it has been sent the join announcement of socket 2. -/
theorem live_before_handshake :
    (run [Action.accept 1, Action.spawn true, Action.accept 2, Action.spawn true,
        Action.recv 1 ⟨3, "bob".toList⟩] Server.init).map
      (fun s => (s.reg.clientSockets, s.sessions, mapFind 1 s.reg.clientNicknames,
        sends s.trace)) =
    some ([1, 2],
      [⟨1, Phase.AwaitingHandshake⟩, ⟨2, Phase.Active⟩],
      none,
      [(1, "bob has joined the chat!".toList), (2, "bob has joined the chat!".toList)]) := by
  rfl

/-- C4 amended. In every state reachable from the empty registry, a handle is an entry of the
socket list if and only if it is the handle just admitted by the acceptor or the handle of a
started thread that has not completed teardown, whether that thread still awaits the handshake
or is in the message loop; so a connection that was accepted and has not yet sent its nickname
is in the list, and every broadcast that does not exclude it is sent to it. -/
theorem live_iff_admitted (acts : List Action) (s : Server)
    (hrun : run acts Server.init = some s) :
    (∀ h, h ∈ s.reg.clientSockets ↔
        (s.pending = some h ∨
          ∃ x ∈ s.sessions, x.clientSocket = h ∧
            (x.phase = Phase.AwaitingHandshake ∨ x.phase = Phase.Active)))
      ∧ (∀ x ∈ s.sessions, x.phase = Phase.AwaitingHandshake →
          x.clientSocket ∈ s.reg.clientSockets
          ∧ ∀ (m : Str) (H : SOCKET), H ≠ x.clientSocket →
              Event.send x.clientSocket m ∈ (broadcastMessage m H s.reg).2) := by
  have hp0 : List.Perm Server.init.reg.clientSockets
      (liveHandles Server.init.sessions ++ Server.init.pending.toList) := List.Perm.refl _
  have hp := run_perm acts Server.init s hrun hp0
  have hiff : ∀ h, h ∈ s.reg.clientSockets ↔
      (s.pending = some h ∨
        ∃ x ∈ s.sessions, x.clientSocket = h ∧
          (x.phase = Phase.AwaitingHandshake ∨ x.phase = Phase.Active)) := by
    intro h
    rw [mem_sockets_iff s hp h]
    have hph : ∀ x : Session, x.phase ≠ Phase.Closed ↔
        (x.phase = Phase.AwaitingHandshake ∨ x.phase = Phase.Active) := by
      intro x
      cases x.phase <;> simp
    constructor
    · rintro (hpend | ⟨x, hx, e, hl⟩)
      · exact Or.inl hpend
      · exact Or.inr ⟨x, hx, e, (hph x).mp hl⟩
    · rintro (hpend | ⟨x, hx, e, hl⟩)
      · exact Or.inl hpend
      · exact Or.inr ⟨x, hx, e, (hph x).mpr hl⟩
  refine ⟨hiff, fun x hx hph => ?_⟩
  have hmem : x.clientSocket ∈ s.reg.clientSockets :=
    (hiff x.clientSocket).mpr (Or.inr ⟨x, hx, rfl, Or.inl hph⟩)
  refine ⟨hmem, fun m H hH => ?_⟩
  rw [broadcastMessage_trace]
  simp only [List.mem_append, List.mem_map, List.mem_filter, bne_iff_ne, ne_eq,
    List.mem_singleton]
  exact Or.inl (Or.inr ⟨x.clientSocket, ⟨hmem, fun e => hH e.symm⟩, rfl⟩)

theorem live_iff_admitted_witness :
    ∃ s : Server,
      run [Action.accept 1, Action.spawn true] Server.init = some s
        ∧ (1 ∈ s.reg.clientSockets ↔
            (s.pending = some 1 ∨
              ∃ x ∈ s.sessions, x.clientSocket = 1 ∧
                (x.phase = Phase.AwaitingHandshake ∨ x.phase = Phase.Active))) :=
  ⟨⟨⟨[1], []⟩, none, [⟨1, Phase.AwaitingHandshake⟩],
      [Event.lock, Event.unlock, Event.spawn 1]⟩, by decide,
    (live_iff_admitted [Action.accept 1, Action.spawn true] _ (by decide)).1 1⟩

/-- C2 as stated fails: in the scenario, `alice has joined the chat!` is delivered to A itself
(socket 1), and `bob has joined the chat!` is delivered to B (socket 2) as well as to A. -/
theorem scenario_join_reaches_joiner :
    (run [Action.accept 1, Action.spawn true, Action.recv 0 ⟨5, "alice".toList⟩,
        Action.accept 2, Action.spawn true, Action.recv 1 ⟨3, "bob".toList⟩,
        Action.recv 0 ⟨2, "hi".toList⟩, Action.recv 1 ⟨0, []⟩] Server.init).map
      (fun s => decide ((1, "alice has joined the chat!".toList) ∈ sends s.trace)
        && decide ((2, "bob has joined the chat!".toList) ∈ sends s.trace)) = some true := by
  decide

/-- C2 amended. From the empty registry, with A on socket 1 and B on socket 2: accept A; A's
first read is `alice`; accept B; B's first read is `bob`; A's next read is `hi`; B's next read
is non-positive.  Then the sends are, in order: `alice has joined the chat!` to A;
`bob has joined the chat!` to A and to B; `alice: hi` to B and not to A;
`bob has left the chat!` to A; and A alone stays registered. -/
theorem scenario_deliveries :
    (run [Action.accept 1, Action.spawn true, Action.recv 0 ⟨5, "alice".toList⟩,
        Action.accept 2, Action.spawn true, Action.recv 1 ⟨3, "bob".toList⟩,
        Action.recv 0 ⟨2, "hi".toList⟩, Action.recv 1 ⟨0, []⟩] Server.init).map
      (fun s => (sends s.trace, s.reg)) =
    some ([(1, "alice has joined the chat!".toList),
        (1, "bob has joined the chat!".toList), (2, "bob has joined the chat!".toList),
        (2, "alice: hi".toList),
        (1, "bob has left the chat!".toList)],
      ⟨[1], [(1, "alice".toList)]⟩) := by
  decide

/-! ## Teardown in a reachable state -/

theorem acceptStep_no_invalid (c : SOCKET) (reg : Registry)
    (hi : INVALID_SOCKET ∉ reg.clientSockets) :
    INVALID_SOCKET ∉ (acceptStep c reg).2.1.clientSockets := by
  unfold acceptStep
  split
  · exact hi
  · rename_i hc
    split
    · exact hi
    · simp only [List.mem_append, List.mem_singleton, not_or]
      exact ⟨hi, fun e => hc e.symm⟩

/-- No move puts `INVALID_SOCKET` into the socket list: line 155 skips a failed `accept`. -/
theorem step_no_invalid (a : Action) (s s1 : Server) (h : step a s = some s1)
    (hi : INVALID_SOCKET ∉ s.reg.clientSockets) :
    INVALID_SOCKET ∉ s1.reg.clientSockets := by
  rcases step_cases a s s1 h with
    ⟨c, -, -, rfl⟩ | ⟨ok, c, -, -, rfl⟩ | ⟨tid, r, c, reg1, tr, -, -, hh, rfl⟩ |
    ⟨tid, r, c, left, reg1, tr, -, -, hh, rfl⟩
  · exact acceptStep_no_invalid c s.reg hi
  · cases ok with
    | true => exact hi
    | false => exact fun hm => hi (List.mem_of_mem_erase hm)
  · show INVALID_SOCKET ∉ reg1.clientSockets
    rw [(handshake_sockets c r s.reg reg1 tr hh).1]
    exact hi
  · show INVALID_SOCKET ∉ reg1.clientSockets
    rw [loopIteration_registry c r s.reg reg1 left tr hh]
    cases left with
    | true => exact fun hm => hi (List.mem_of_mem_erase hm)
    | false => exact hi

theorem run_no_invalid (acts : List Action) :
    ∀ s s1 : Server, run acts s = some s1 → INVALID_SOCKET ∉ s.reg.clientSockets →
      INVALID_SOCKET ∉ s1.reg.clientSockets := by
  induction acts with
  | nil =>
    intro s s1 h hi
    simp only [run, Option.some.injEq] at h
    rw [← h]
    exact hi
  | cons a acts ih =>
    intro s s1 h hi
    simp only [run] at h
    cases hs : step a s with
    | none => simp [hs] at h
    | some s2 =>
      simp only [hs] at h
      exact ih s2 s1 h (step_no_invalid a s s2 hs hi)

/-- C7. In every registry state the server reaches from the empty registry (the handles
returned by `accept` being fresh), for every handle `h` whose message-loop read returns a
non-positive result, the teardown step removes `h` from the socket list and from the nickname
map, keeps every other list entry in its order and every other nickname binding, composes
`name ++ " has left the chat!"` when `h` had `name` bound and `A user has left the chat!` when
no name was bound, sends that text with no exclusion to every handle remaining in the list
(hence not to `h`), and then closes `h`; the thread of `h` leaves the loop and is closed. -/
theorem teardown_removes_and_announces (acts : List Action) (s : Server)
    (hrun : run acts Server.init = some s) (hfresh : freshAccepts acts Server.init = true)
    (h : SOCKET) (r : RecvResult) (hr : r.ret ≤ 0) :
    ∃ st1 : Registry,
      loopIteration h r s.reg =
          some (true, st1,
            [Event.recv h, Event.lock, Event.unlock, Event.lock] ++
              st1.clientSockets.map (fun c => Event.send c (disconnectMsg h s.reg)) ++
              [Event.unlock, Event.print (disconnectMsg h s.reg), Event.closesocket h])
        ∧ st1.clientSockets = s.reg.clientSockets.filter (fun c => c != h)
        ∧ h ∉ st1.clientSockets
        ∧ mapFind h st1.clientNicknames = none
        ∧ (∀ k, k ≠ h → mapFind k st1.clientNicknames = mapFind k s.reg.clientNicknames)
        ∧ (∀ name, mapFind h s.reg.clientNicknames = some name →
            disconnectMsg h s.reg = name ++ " has left the chat!".toList)
        ∧ (mapFind h s.reg.clientNicknames = none →
            disconnectMsg h s.reg = "A user has left the chat!".toList)
        ∧ (∀ tid, s.sessions.get? tid = some ⟨h, Phase.Active⟩ →
            step (Action.recv tid r) s =
              some { s with
                reg := st1
                sessions := s.sessions.set tid ⟨h, Phase.Closed⟩
                trace := s.trace ++
                  ([Event.recv h, Event.lock, Event.unlock, Event.lock] ++
                    st1.clientSockets.map (fun c => Event.send c (disconnectMsg h s.reg)) ++
                    [Event.unlock, Event.print (disconnectMsg h s.reg),
                      Event.closesocket h]) }) := by
  have hp0 : List.Perm Server.init.reg.clientSockets
      (liveHandles Server.init.sessions ++ Server.init.pending.toList) := List.Perm.refl _
  have hn := (run_nodup_keys acts Server.init s hrun hfresh hp0 List.nodup_nil
    (fun k hk => by simp [Server.init, mapKeys] at hk)).1
  have hi := run_no_invalid acts Server.init s hrun (by simp [Server.init])
  have hc : s.reg.clientSockets.count h ≤ 1 := List.nodup_iff_count_le_one.mp hn h
  obtain ⟨st1, h1, h2, h3, h4, h5, h6, h7⟩ := teardown_of_unique h r s.reg hr hc hi
  refine ⟨st1, h1, h2, h3, h4, h5, h6, h7, fun tid hg => ?_⟩
  rw [List.get?_eq_getElem?] at hg
  simp only [step, List.get?_eq_getElem?, hg, h1, if_true]

theorem teardown_removes_and_announces_witness :
    ∃ (s : Server) (st1 : Registry),
      run [Action.accept 1, Action.spawn true, Action.recv 0 ⟨3, "bob".toList⟩,
          Action.accept 2, Action.spawn true] Server.init = some s
        ∧ loopIteration 1 ⟨0, []⟩ s.reg =
            some (true, st1,
              [Event.recv 1, Event.lock, Event.unlock, Event.lock] ++
                st1.clientSockets.map (fun c => Event.send c (disconnectMsg 1 s.reg)) ++
                [Event.unlock, Event.print (disconnectMsg 1 s.reg), Event.closesocket 1])
        ∧ 1 ∉ st1.clientSockets := by
  have hs : ∃ s : Server,
      run [Action.accept 1, Action.spawn true, Action.recv 0 ⟨3, "bob".toList⟩,
          Action.accept 2, Action.spawn true] Server.init = some s := by
    simp only [Option.isSome_iff_exists.symm]
    decide
  obtain ⟨s, hrun⟩ := hs
  obtain ⟨st1, h1, _, h3, _⟩ :=
    teardown_removes_and_announces _ s hrun (by decide) 1 ⟨0, []⟩ (by decide)
  exact ⟨s, st1, hrun, h1, h3⟩

end ChatApp
